import Mathlib

/-!
# Verification of the Legifrance proxy core

Shallow embedding of the resolver / transport / token-manager core of the
`V2 API LEGIFRANCE/proxy` repository, together with proofs of its specified
properties.

The embedding mirrors:
* `app/utils/normalize.py`   — string normalization helpers,
* `app/utils/dates.py`       — ISO date → epoch-milliseconds conversion,
* `app/services/resolver.py` — search payload builders, identifier
  extraction, the `resolve_code_article` state machine,
* `app/services/legifrance.py` — token acquisition (`_fetch_new_token`,
  `get_token`) and the retrying transport (`_post_legifrance`).

JSON values are modelled by an inductive `Json`; Python truthiness,
`dict.get`, `x or y`, and `int(...)` coercion are modelled explicitly.
Network effects are modelled by oracles: the transport consumes a stream
`Nat → Event` of response events, and the resolver takes an `Env` of
search/getArticle oracles while recording the network calls it issues.
-/

/-- JSON values, as produced by `resp.json()` in the Python source. Numbers
are modelled as integers (all numbers occurring in the modelled code are
integral: statuses, page sizes, epoch milliseconds, lifetimes). -/
inductive Json where
  | null : Json
  | bool (b : Bool) : Json
  | num (n : Int) : Json
  | str (s : String) : Json
  | arr (elems : List Json) : Json
  | obj (fields : List (String × Json)) : Json

/-- Python truthiness on JSON values: `None`, `False`, `0`, `""`, `[]`, `{}`
are falsy, everything else truthy. -/
def pyTruthy : Json → Bool
  | Json.null => false
  | Json.bool b => b
  | Json.num n => n != 0
  | Json.str s => s != ""
  | Json.arr l => !l.isEmpty
  | Json.obj l => !l.isEmpty

/-- Python `x or y`: returns `x` if truthy else `y`. -/
def pyOr (x y : Json) : Json := if pyTruthy x then x else y

/-- Python `dict.get(k)`: the value bound to `k`, else `None`; on a
non-dict value the model returns `None` (all call sites guard with
`isinstance(..., dict)`). -/
def Json.get : Json → String → Json
  | Json.obj fields, k => ((fields.lookup k).getD Json.null)
  | _, _ => Json.null

/-- Python `dict.get(k, default)`. -/
def Json.getA : Json → String → Json → Json
  | Json.obj fields, k, d => ((fields.lookup k).getD d)
  | _, _, d => d

/-- Whether a key is present at all in a JSON object. -/
def Json.hasKey : Json → String → Bool
  | Json.obj fields, k => (fields.lookup k).isSome
  | _, _ => false

/-! ## `app/utils/normalize.py` -/

/-- Python's `\s` for the ASCII range (`re` whitespace and `str.strip`
default), restricted to the characters the modelled strings can contain. -/
def pyIsSpace (c : Char) : Bool :=
  c = ' ' || c = '\t' || c = '\n' || c = '\r' || c = '\x0b' || c = '\x0c'

/-- Python `str.strip()` on a character list. -/
def stripChars (cs : List Char) : List Char :=
  ((cs.dropWhile pyIsSpace).reverse.dropWhile pyIsSpace).reverse

/-- `re.sub(r"\s+", " ", s)`: collapse every whitespace run to one space.
One pass; the flag records whether the previous character was whitespace
(i.e. the run was already emitted as a single space). -/
def collapseAux : Bool → List Char → List Char
  | _, [] => []
  | inWs, c :: rest =>
    if pyIsSpace c then
      if inWs then collapseAux true rest
      else ' ' :: collapseAux true rest
    else c :: collapseAux false rest

def collapseWs (cs : List Char) : List Char := collapseAux false cs

/-- `re.sub(r"\s*-\s*", "-", s)`: delete whitespace adjacent to hyphens.
One pass; `pend` buffers a whitespace run (in reverse) whose fate depends
on whether a hyphen follows it, and the flag records that the previous
emitted character was a hyphen (whose trailing whitespace is consumed by
the regex match). -/
def squashAux (pend : List Char) (afterHyphen : Bool) : List Char → List Char
  | [] => pend.reverse
  | c :: rest =>
    if pyIsSpace c then
      if afterHyphen then squashAux [] true rest
      else squashAux (c :: pend) false rest
    else if c = '-' then '-' :: squashAux [] true rest
    else pend.reverse ++ c :: squashAux [] false rest

def squashHyphens (cs : List Char) : List Char := squashAux [] false cs

/-- `re.sub(r"^([A-Za-z])\s+(\d)", r"\1\2", s)`: if the string starts with a
letter, one or more whitespace characters, then a digit, delete that
whitespace (anchored, applied once). -/
def glueLetterDigit (cs : List Char) : List Char :=
  match cs with
  | [] => []
  | c :: rest =>
    if c.isAlpha then
      match rest.takeWhile pyIsSpace, rest.dropWhile pyIsSpace with
      | _ :: _, d :: tail =>
        if d.isDigit then c :: d :: tail else cs
      | _, _ => cs
    else cs

/-- `normalize_article_num` from `app/utils/normalize.py`; `none` models the
Python `None` returned for a falsy input. -/
def normalize_article_num (raw : String) : Option String :=
  if raw = "" then none
  else
    let s := stripChars raw.toList
    let s := squashHyphens s
    let s := glueLetterDigit s
    let s := collapseWs s
    some (String.mk s)

/-- `normalize_code_title` from `app/utils/normalize.py`. -/
def normalize_code_title (raw : String) : Option String :=
  if raw = "" then none
  else some (String.mk (collapseWs (stripChars raw.toList)))

/-- Python falsiness of an `Optional[str]`: `None` or `""`. -/
def pyFalsyOptStr : Option String → Bool
  | none => true
  | some s => s = ""

/-! ## `app/utils/dates.py` -/

/-- Gregorian leap year. -/
def isLeapYear (y : Nat) : Bool :=
  (y % 4 = 0 && y % 100 != 0) || y % 400 = 0

/-- Days in the year strictly before month `m` (1-based). -/
def daysBeforeMonth (y m : Nat) : Nat :=
  ([0, 31, 59, 90, 120, 151, 181, 212, 243, 273, 304, 334].getD (m - 1) 0)
    + (if 2 < m && isLeapYear y then 1 else 0)

/-- Number of days in month `m` of year `y`. -/
def daysInMonth (y m : Nat) : Nat :=
  if m = 2 then (if isLeapYear y then 29 else 28)
  else [31, 31, 28, 31, 30, 31, 30, 31, 31, 30, 31, 30, 31].getD m 31

/-- Proleptic-Gregorian ordinal of a date, as in Python's
`date.toordinal()` (0001-01-01 is day 1). -/
def dateOrdinal (y m d : Nat) : Nat :=
  365 * (y - 1) + (y - 1) / 4 - (y - 1) / 100 + (y - 1) / 400
    + daysBeforeMonth y m + d

/-- Value of a list of decimal digit characters. -/
def digitsToNat (cs : List Char) : Nat :=
  cs.foldl (fun a c => a * 10 + (c.toNat - 48)) 0

/-- Parse `"%Y-%m-%d"` exactly as `datetime.strptime` does (1–4 year
digits, 1–2 month/day digits, the whole string consumed, and a valid
proleptic-Gregorian calendar date with year ≥ 1). -/
def parseYmd (cs : List Char) : Option (Nat × Nat × Nat) :=
  let ys := cs.takeWhile Char.isDigit
  let r1 := cs.dropWhile Char.isDigit
  if ys.length < 1 || 4 < ys.length then none
  else
    match r1 with
    | '-' :: r2 =>
      let ms := r2.takeWhile Char.isDigit
      let r3 := r2.dropWhile Char.isDigit
      if ms.length < 1 || 2 < ms.length then none
      else
        match r3 with
        | '-' :: r4 =>
          let ds := r4.takeWhile Char.isDigit
          let r5 := r4.dropWhile Char.isDigit
          if ds.length < 1 || 2 < ds.length || !r5.isEmpty then none
          else
            let y := digitsToNat ys
            let m := digitsToNat ms
            let d := digitsToNat ds
            if 1 ≤ y && 1 ≤ m && m ≤ 12 && 1 ≤ d && d ≤ daysInMonth y m then
              some (y, m, d)
            else none
        | _ => none
    | _ => none

/-- Epoch milliseconds of a proleptic-Gregorian date at UTC midnight,
matching `int(datetime(..., tzinfo=utc).timestamp() * 1000)`.
`date(1970, 1, 1).toordinal() = 719163`. -/
def ymdToMillis (y m d : Nat) : Int :=
  ((dateOrdinal y m d : Int) - 719163) * 86400000

/-- `iso_date_to_millis` from `app/utils/dates.py`. `Except.error ()`
models the uncaught `ValueError` that `strptime` raises on a malformed
date; `.ok none` models the `None` returned for a falsy input. -/
def iso_date_to_millis (date_str : Option String) : Except Unit (Option Int) :=
  match date_str with
  | none => Except.ok none
  | some s =>
    if s = "" then Except.ok none
    else
      let t := (stripChars s.toList).map (fun c => if c = '/' then '-' else c)
      match parseYmd t with
      | some (y, m, d) => Except.ok (some (ymdToMillis y m d))
      | none => Except.error ()

/-! ## Payload builders (`app/services/resolver.py`) -/

/-- The `DATE_VERSION` search filter. -/
def dateVersionFilter (millis : Int) : Json :=
  Json.obj [("facette", Json.str "DATE_VERSION"), ("singleDate", Json.num millis)]

/-- The in-force legal-status search filter. -/
def statusFilter : Json :=
  Json.obj [("facette", Json.str "TEXT_LEGAL_STATUS"), ("valeur", Json.str "VIGUEUR")]

/-- The exact-match `TEXT_NOM_CODE` search criterion block. -/
def codeTitleChamp (code_title : String) : Json :=
  Json.obj
    [("typeChamp", Json.str "TEXT_NOM_CODE"),
     ("criteres", Json.arr
       [Json.obj [("typeRecherche", Json.str "EXACTE"),
                  ("valeur", Json.str code_title),
                  ("operateur", Json.str "ET")]]),
     ("operateur", Json.str "ET")]

/-- The exact-match `NUM_ARTICLE` search criterion block. -/
def numArticleChamp (article_num : String) : Json :=
  Json.obj
    [("typeChamp", Json.str "NUM_ARTICLE"),
     ("criteres", Json.arr
       [Json.obj [("typeRecherche", Json.str "EXACTE"),
                  ("valeur", Json.str article_num),
                  ("operateur", Json.str "ET")]]),
     ("operateur", Json.str "ET")]

/-- `_search_payload_code_article`. The `Except` carries the uncaught
`ValueError` of a malformed date hint. `millis = iso_date_to_millis(dv)
if dv else None`, and the `DATE_VERSION` filter is added only `if millis:`
(so a zero value adds no filter). -/
def search_payload_code_article (code_title article_num : String)
    (date_version : Option String) : Except Unit Json :=
  let millisE : Except Unit (Option Int) :=
    match date_version with
    | none => Except.ok none
    | some s => if s = "" then Except.ok none else iso_date_to_millis (some s)
  match millisE with
  | Except.error e => Except.error e
  | Except.ok millis =>
    let filtres : List Json :=
      (match millis with
       | some m => if m != 0 then [dateVersionFilter m] else []
       | none => []) ++ [statusFilter]
    Except.ok (Json.obj
      [("fond", Json.str "CODE_ETAT"),
       ("recherche", Json.obj
         [("champs", Json.arr [codeTitleChamp code_title, numArticleChamp article_num]),
          ("filtres", Json.arr filtres),
          ("pageNumber", Json.num 1),
          ("pageSize", Json.num 10),
          ("operateur", Json.str "ET"),
          ("sort", Json.str "PERTINENCE"),
          ("typePagination", Json.str "DEFAUT")])])

/-- `_fallback_payload_code_only`. -/
def fallback_payload_code_only (code_title : String) : Json :=
  Json.obj
    [("fond", Json.str "CODE_ETAT"),
     ("recherche", Json.obj
       [("champs", Json.arr [codeTitleChamp code_title]),
        ("filtres", Json.arr [statusFilter]),
        ("pageNumber", Json.num 1),
        ("pageSize", Json.num 5),
        ("operateur", Json.str "ET"),
        ("sort", Json.str "PERTINENCE"),
        ("typePagination", Json.str "DEFAUT")])]

/-! ## Identifier extraction (`_extract_legiarti_id_from_search`) -/

/-- Does the second list of characters begin with the first
(`str.startswith`, by characters)? -/
def leadsWith : List Char → List Char → Bool
  | [], _ => true
  | _ :: _, [] => false
  | c :: cs, d :: ds => c = d && leadsWith cs ds

/-- Python `s.startswith(marker)` on strings. -/
def pyStartsWith (marker s : String) : Bool := leadsWith marker.toList s.toList

/-- `isinstance(v, str) and v.startswith("LEGIARTI")`: the kept identifier,
as the (0- or 1-element) list it contributes. -/
def legiartiOfId (v : Json) : List String :=
  match v with
  | Json.str s => if pyStartsWith "LEGIARTI" s then [s] else []
  | _ => []

/-- One entry of a result's `articles` sub-list: a dict contributes its
`id` field when it is a `LEGIARTI` string. -/
def idsOfArticleEntry (a : Json) : List String :=
  match a with
  | Json.obj _ => legiartiOfId (a.get "id")
  | _ => []

/-- One entry of the `results` list: a dict contributes the identifiers of
its `articles` sub-list (`or []`, tolerating a non-list) followed by its
own `id` field. -/
def idsOfResult (r : Json) : List String :=
  match r with
  | Json.obj _ =>
    (match pyOr (r.get "articles") (Json.arr []) with
     | Json.arr arts => arts.foldr (fun a acc => idsOfArticleEntry a ++ acc) []
     | _ => []) ++ legiartiOfId (r.get "id")
  | _ => []

/-- The identifiers collected before deduplication: the concatenation over
the `results` list (`or []`, and `[]` if not a list) of each result's
contribution, in order. -/
def extractRawIds (search_resp : Json) : List String :=
  match pyOr (search_resp.get "results") (Json.arr []) with
  | Json.arr rs => rs.foldr (fun r acc => idsOfResult r ++ acc) []
  | _ => []

/-- The dedup loop of `_extract_legiarti_id_from_search`: `seen` is the
Python set (membership-equivalent list), appending first occurrences. -/
def dedupAux (seen : List String) : List String → List String
  | [] => []
  | x :: xs =>
    if x ∈ seen then dedupAux seen xs
    else x :: dedupAux (x :: seen) xs

/-- `_extract_legiarti_id_from_search`: collect then deduplicate keeping
first-seen order. -/
def extract_legiarti_id_from_search (search_resp : Json) : List String :=
  dedupAux [] (extractRawIds search_resp)

/-- Canonical first-seen deduplication, stated by recursion (the
specification-side form: keep the head, drop its later duplicates). -/
def firstSeenDedup : List String → List String
  | [] => []
  | x :: xs => x :: firstSeenDedup (xs.filter (fun y => y ≠ x))
termination_by l => l.length
decreasing_by
  have := List.length_filter_le (fun y => y ≠ x) xs
  simp only [List.length_cons]
  omega

/-! ## Transport (`_post_legifrance`, `app/services/legifrance.py`)

One logical call is modelled against an event stream `env : Nat → Event`:
`env r` is what the `r`-th invocation of `_do_post` produces — a response
with status and JSON body, a network-level failure
(`httpx.TimeoutException` / `httpx.NetworkError`), or a
`LegifranceAuthError` raised by `get_token` before the HTTP request. -/

/-- Outcome of one `_do_post` invocation. -/
inductive Event where
  | resp (status : Nat) (body : Json)
  | netErr (msg : String)
  | authErr (msg : String)

/-- Result of `_post_legifrance`: success body, `LegifranceApiError` for a
non-retried status ≥ 400, `LegifranceApiError` after retry exhaustion
(carrying the last network exception, `None` if the retried failures were
statuses), or a propagated `LegifranceAuthError`. -/
inductive PostResult where
  | ok (body : Json)
  | apiError (status : Nat) (body : Json)
  | netExhausted (lastExc : Option String)
  | authError (msg : String)

/-- Observable trace of one `_post_legifrance` call: number of `_do_post`
invocations, backoff sleeps in milliseconds in order, and number of token
cache invalidations. -/
structure PostTrace where
  requests : Nat
  delays : List Nat
  invalidations : Nat
deriving Repr

/-- `0.2 * (2 ** attempt)` seconds, in milliseconds. -/
def backoffMs (attempt : Nat) : Nat := 200 * 2 ^ attempt

/-- The backoff sleeps of `k` consecutive retried attempts starting at
attempt index `attempt`. -/
def backoffSchedule : Nat → Nat → List Nat
  | 0, _ => []
  | k + 1, attempt => backoffMs attempt :: backoffSchedule k (attempt + 1)

/-- The statuses retried as transient: `(429, 500, 502, 503, 504)`. -/
def transientStatus (st : Nat) : Bool :=
  st = 429 || st = 500 || st = 502 || st = 503 || st = 504

/-- Final status check of `_post_legifrance` after the loop breaks. -/
def finishResp (st : Nat) (body : Json) : PostResult :=
  if 400 ≤ st then PostResult.apiError st body else PostResult.ok body

/-- The retry loop of `_post_legifrance`. `fuel` is the number of loop
iterations left (3 at entry), `attempt` the current index, `r` the number
of `_do_post` invocations so far, `refreshed` the `refreshed_after_401`
flag, `lastExc` the `last_exc` variable, `delays` the sleeps so far in
reverse, `invs` the invalidation count. -/
def postAux (env : Nat → Event) :
    Nat → Nat → Nat → Bool → Option String → List Nat → Nat →
    PostResult × PostTrace
  | 0, _, r, _, lastExc, delays, invs =>
    (PostResult.netExhausted lastExc, ⟨r, delays.reverse, invs⟩)
  | fuel + 1, attempt, r, refreshed, lastExc, delays, invs =>
    match env r with
    | Event.authErr m => (PostResult.authError m, ⟨r + 1, delays.reverse, invs⟩)
    | Event.netErr e =>
      postAux env fuel (attempt + 1) (r + 1) refreshed (some e)
        (backoffMs attempt :: delays) invs
    | Event.resp st body =>
      if st = 401 && !refreshed then
        match env (r + 1) with
        | Event.authErr m =>
          (PostResult.authError m, ⟨r + 2, delays.reverse, invs + 1⟩)
        | Event.netErr e =>
          postAux env fuel (attempt + 1) (r + 2) true (some e)
            (backoffMs attempt :: delays) (invs + 1)
        | Event.resp st2 body2 =>
          if transientStatus st2 then
            postAux env fuel (attempt + 1) (r + 2) true lastExc
              (backoffMs attempt :: delays) (invs + 1)
          else
            (finishResp st2 body2, ⟨r + 2, delays.reverse, invs + 1⟩)
      else
        if transientStatus st then
          postAux env fuel (attempt + 1) (r + 1) refreshed lastExc
            (backoffMs attempt :: delays) invs
        else
          (finishResp st body, ⟨r + 1, delays.reverse, invs⟩)

/-- `_post_legifrance`: the loop runs `for attempt in range(3)`. -/
def post_legifrance (env : Nat → Event) : PostResult × PostTrace :=
  postAux env 3 0 0 false none [] 0

/-- An event stream from a finite script, answering `d` past its end. -/
def envOfList (script : List Event) (d : Event) : Nat → Event :=
  fun r => script.getD r d

/-- Whether an event is handled by the transient-retry path of the loop:
a response whose status is in the retried set, or a network-level failure
(`httpx.TimeoutException` / `httpx.NetworkError`). -/
def eventTransient : Event → Bool
  | Event.resp st _ => transientStatus st
  | Event.netErr _ => true
  | Event.authErr _ => false

/-! ## Token manager (`_fetch_new_token`, `get_token`) -/

/-- The `LegifranceAuthError` variants raised by `_fetch_new_token`, plus
the uncaught `ValueError`/`TypeError` of `int(...)` on a non-numeric
`expires_in`. -/
inductive FetchErr where
  | credsMissing
  | tokenEndpoint (status : Nat) (body : Json)
  | noAccessToken
  | coerce

/-- Python `int(x)` on a JSON value: identity on integers, decimal parse
of a (stripped, optionally signed) string, `True`/`False` to `1`/`0`;
anything else raises (`none`). -/
def pyInt : Json → Option Int
  | Json.num n => some n
  | Json.bool b => some (if b then 1 else 0)
  | Json.str s =>
    let t := stripChars s.toList
    match t with
    | '-' :: rest =>
      if rest ≠ [] && rest.all Char.isDigit then some (-(digitsToNat rest : Int)) else none
    | '+' :: rest =>
      if rest ≠ [] && rest.all Char.isDigit then some ((digitsToNat rest : Int)) else none
    | _ =>
      if t ≠ [] && t.all Char.isDigit then some ((digitsToNat t : Int)) else none
  | _ => none

/-- `_fetch_new_token`, given the configured credentials, the token
endpoint's response (status and JSON body) and the current time `now`
(`time.time()`, in seconds). On success it returns the token value and the
cached expiry `now + expires_in - 60`. -/
def fetch_new_token (clientId clientSecret : String) (status : Nat)
    (body : Json) (now : Int) : Except FetchErr (Json × Int) :=
  if clientId = "" || clientSecret = "" then Except.error FetchErr.credsMissing
  else if status ≠ 200 then Except.error (FetchErr.tokenEndpoint status body)
  else
    let token := body.get "access_token"
    if !pyTruthy token then Except.error FetchErr.noAccessToken
    else
      match pyInt (body.getA "expires_in" (Json.num 3600)) with
      | none => Except.error FetchErr.coerce
      | some expires_in => Except.ok (token, now + expires_in - 60)

/-- The module-level token cache (`_access_token`, `_token_expires_at`).
`Json.null` models `None` for the token; the expiry is `none` for `None`. -/
structure TokenCache where
  access_token : Json
  expires_at : Option Int

/-- The validity check `_access_token and _token_expires_at and
now < _token_expires_at` (note Python truthiness: an expiry of exactly `0`
is falsy and forces a refresh). -/
def tokenIsValid (c : TokenCache) (now : Int) : Bool :=
  pyTruthy c.access_token &&
    (match c.expires_at with
     | none => false
     | some e => e ≠ 0 && now < e)

/-- `get_token` for a single caller: return the cached token if still
valid, otherwise refresh via `fetch_new_token` (the endpoint interaction
is given by `status`/`body`), updating the cache on success. -/
def get_token (cache : TokenCache) (now : Int) (clientId clientSecret : String)
    (status : Nat) (body : Json) : Except FetchErr Json × TokenCache :=
  if tokenIsValid cache now then (Except.ok cache.access_token, cache)
  else
    match fetch_new_token clientId clientSecret status body now with
    | Except.ok (tok, exp) => (Except.ok tok, ⟨tok, some exp⟩)
    | Except.error e => (Except.error e, cache)

/-! ## Resolution engine (`resolve_code_article`, `app/services/resolver.py`) -/

/-- Failures that `lf_search` / `lf_get_article` can raise, as caught (or
not) by the resolver: authentication errors, remote-API errors, retry
exhaustion. -/
inductive LfError where
  | auth (msg : String)
  | api (status : Nat) (body : Json)
  | netExhausted (lastExc : Option String)

/-- A network call issued by the resolver, in order. -/
inductive NetCall where
  | search (payload : Json)
  | getArticle (legiarti_id : String)

/-- Whether a recorded network call is a `/search` call. -/
def NetCall.isSearch : NetCall → Bool
  | NetCall.search _ => true
  | NetCall.getArticle _ => false

/-- Oracles for the two remote endpoints the resolver uses. -/
structure Env where
  search : Json → Except LfError Json
  getArticle : String → Except LfError Json

/-- `ResolvedArticle` (dataclass). The title is a JSON value: the code
returns whatever `first.get("title") or first.get("titreLong")` yields
(`null` models `None`). -/
structure ResolvedArticle where
  source : String
  legiarti_id : String
  title : Json
  article_num : String
  date_version : Option String
  raw : Json

/-- Outcome of `resolve_code_article`: the returned value or the raised
exception (`ResolutionError` subclasses, an escaped transport error, or
the uncaught `ValueError` of a malformed date hint). -/
inductive ResolveOutcome where
  | resolved (a : ResolvedArticle)
  | notFound (msg : String)
  | ambiguous (msg : String) (candidates : List Json)
  | tooBroad (msg : String)
  | error (e : LfError)
  | dateError

/-- Python `f"{x}"` for an `Optional[str]`. -/
def pyReprOptStr : Option String → String
  | none => "None"
  | some s => s

/-- The `NotFoundError` message
`f"Aucun article trouvé pour '{code_title}' article '{article_num}' (date={date_hint})."`. -/
def notFoundMsg (code_title article_num : String) (date_hint : Option String) : String :=
  "Aucun article trouvé pour '" ++ code_title ++ "' article '" ++ article_num
    ++ "' (date=" ++ pyReprOptStr date_hint ++ ")."

/-- The `AmbiguousError` message
`f"Plusieurs articles possibles ({len(ids)}). Précise le code exact ou l'intitulé."`. -/
def ambiguousMsg (n : Nat) : String :=
  "Plusieurs articles possibles (" ++ toString n ++ "). Précise le code exact ou l'intitulé."

/-- One `Ambiguous` candidate: `{"id": _id}`. -/
def mkCandidate (legiarti_id : String) : Json :=
  Json.obj [("id", Json.str legiarti_id)]

/-- `_extract_title_from_article_resp`. -/
def extract_title_from_article_resp (article_resp : Json) : Json :=
  match article_resp with
  | Json.obj _ =>
    let art :=
      match article_resp.get "article" with
      | Json.obj fields => Json.obj fields
      | _ => article_resp
    let titles := pyOr (art.get "textTitles") (pyOr (art.get "titles") (Json.arr []))
    match titles with
    | Json.arr (first :: _) =>
      (match first with
       | Json.obj _ => pyOr (first.get "title") (first.get "titreLong")
       | _ => Json.null)
    | _ => Json.null
  | _ => Json.null

/-- The fetch phase of `resolve_code_article`: `lf_get_article` on the
chosen identifier, then result assembly. -/
def fetchPhase (env : Env) (legiarti_id article_num : String)
    (date_hint : Option String) (trace : List NetCall) :
    ResolveOutcome × List NetCall :=
  match env.getArticle legiarti_id with
  | Except.error e => (ResolveOutcome.error e, trace ++ [NetCall.getArticle legiarti_id])
  | Except.ok article_resp =>
    (ResolveOutcome.resolved
      { source := "CODE"
        legiarti_id := legiarti_id
        title := extract_title_from_article_resp article_resp
        article_num := article_num
        date_version := date_hint
        raw := article_resp },
     trace ++ [NetCall.getArticle legiarti_id])

/-- The disambiguation policy and fetch phase of `resolve_code_article`,
applied to a successful search response. -/
def afterSearch (env : Env) (code_title article_num : String)
    (date_hint : Option String) (search_resp : Json) (trace : List NetCall) :
    ResolveOutcome × List NetCall :=
  let ids := extract_legiarti_id_from_search search_resp
  if ids.isEmpty then
    (ResolveOutcome.notFound (notFoundMsg code_title article_num date_hint), trace)
  else if 3 < ids.length then
    (ResolveOutcome.ambiguous (ambiguousMsg ids.length)
      ((ids.take 10).map mkCandidate), trace)
  else
    fetchPhase env (ids.headD "") article_num date_hint trace

/-- `resolve_code_article`, recording the network calls it issues. -/
def resolve_code_article (env : Env) (code_hint article_hint : String)
    (date_hint : Option String) : ResolveOutcome × List NetCall :=
  let code_title := normalize_code_title code_hint
  let article_num := normalize_article_num article_hint
  if pyFalsyOptStr code_title || pyFalsyOptStr article_num then
    (ResolveOutcome.tooBroad "code_hint ou article_hint manquant", [])
  else
    let ct := code_title.getD ""
    let an := article_num.getD ""
    match search_payload_code_article ct an date_hint with
    | Except.error _ => (ResolveOutcome.dateError, [])
    | Except.ok payload =>
      match env.search payload with
      | Except.ok search_resp =>
        afterSearch env ct an date_hint search_resp [NetCall.search payload]
      | Except.error _ =>
        match env.search (fallback_payload_code_only ct) with
        | Except.ok search_resp =>
          afterSearch env ct an date_hint search_resp
            [NetCall.search payload, NetCall.search (fallback_payload_code_only ct)]
        | Except.error e2 =>
          (ResolveOutcome.error e2,
           [NetCall.search payload, NetCall.search (fallback_payload_code_only ct)])

/-! ## Concurrent `get_token` (double-checked locking)

`get_token` under asyncio: many tasks run `get_token` concurrently; the
scheduler interleaves them at the `await` points (acquiring `_token_lock`
and the token POST inside `_fetch_new_token`). The model freezes time
within the episode (a freshly fetched token stays valid) and assumes the
token POST succeeds, which is the scenario of the specification: starting
from an absent/expired cache, each task checks the cache, awaits the lock,
re-checks under the lock, and only fetches if the cache is still invalid,
the fetch suspending before it publishes the token and releases the lock. -/

/-- Program counter of one task running `get_token`. -/
inductive TaskPC where
  | start
  | waitLock
  | recheck
  | fetching
  | done
deriving DecidableEq

/-- Shared state: whether a valid token is cached, whether `_token_lock` is
held, how many token POSTs were issued, and every task's position. -/
structure TMState (n : Nat) where
  cache : Bool
  lock : Bool
  requests : Nat
  pc : Fin n → TaskPC

/-- Interleaving semantics of `get_token`: any task may take its next
enabled step. -/
inductive TMStep {n : Nat} : TMState n → TMState n → Prop where
  | checkHit (s : TMState n) (i : Fin n) :
      s.pc i = TaskPC.start → s.cache = true →
      TMStep s { s with pc := Function.update s.pc i TaskPC.done }
  | checkMiss (s : TMState n) (i : Fin n) :
      s.pc i = TaskPC.start → s.cache = false →
      TMStep s { s with pc := Function.update s.pc i TaskPC.waitLock }
  | acquire (s : TMState n) (i : Fin n) :
      s.pc i = TaskPC.waitLock → s.lock = false →
      TMStep s { s with lock := true, pc := Function.update s.pc i TaskPC.recheck }
  | recheckHit (s : TMState n) (i : Fin n) :
      s.pc i = TaskPC.recheck → s.cache = true →
      TMStep s { s with lock := false, pc := Function.update s.pc i TaskPC.done }
  | recheckMiss (s : TMState n) (i : Fin n) :
      s.pc i = TaskPC.recheck → s.cache = false →
      TMStep s { s with requests := s.requests + 1,
                        pc := Function.update s.pc i TaskPC.fetching }
  | fetchDone (s : TMState n) (i : Fin n) :
      s.pc i = TaskPC.fetching →
      TMStep s { s with cache := true, lock := false,
                        pc := Function.update s.pc i TaskPC.done }

/-- Initial state: empty/expired cache, free lock, no requests, all tasks
about to call `get_token`. -/
def tmInit (n : Nat) : TMState n :=
  { cache := false, lock := false, requests := 0, pc := fun _ => TaskPC.start }

/-- Reachability from the initial state. -/
def tmReachable {n : Nat} (s : TMState n) : Prop :=
  Relation.ReflTransGen TMStep (tmInit n) s

/-- In the critical section protected by `_token_lock`. -/
def inCrit : TaskPC → Prop
  | TaskPC.recheck => True
  | TaskPC.fetching => True
  | _ => False

instance : DecidablePred inCrit := by
  intro p
  cases p <;> simp [inCrit] <;> infer_instance

/-- The inductive invariant of the double-checked pattern. -/
structure TMInv {n : Nat} (s : TMState n) : Prop where
  excl : ∀ i j : Fin n, inCrit (s.pc i) → inCrit (s.pc j) → i = j
  lockIff : s.lock = true ↔ ∃ i, inCrit (s.pc i)
  fetchNoCache : ∀ i, s.pc i = TaskPC.fetching → s.cache = false
  doneCache : ∀ i, s.pc i = TaskPC.done → s.cache = true
  reqEq : s.requests =
    (if s.cache then 1 else 0) + (if ∃ i, s.pc i = TaskPC.fetching then 1 else 0)

theorem inCrit_update {n : Nat} (pc : Fin n → TaskPC) (i : Fin n) (v : TaskPC)
    (j : Fin n) (h : inCrit (Function.update pc i v j)) :
    (j = i ∧ inCrit v) ∨ (j ≠ i ∧ inCrit (pc j)) := by
  rcases eq_or_ne j i with rfl | hji
  · left; exact ⟨rfl, by rwa [Function.update_same] at h⟩
  · right; exact ⟨hji, by rwa [Function.update_noteq hji] at h⟩

theorem pc_update_eq {n : Nat} (pc : Fin n → TaskPC) (i : Fin n) (v : TaskPC)
    (j : Fin n) (w : TaskPC) (h : Function.update pc i v j = w) :
    (j = i ∧ v = w) ∨ (j ≠ i ∧ pc j = w) := by
  rcases eq_or_ne j i with rfl | hji
  · left; exact ⟨rfl, by rwa [Function.update_same] at h⟩
  · right; exact ⟨hji, by rwa [Function.update_noteq hji] at h⟩

theorem exists_eq_update_stable {n : Nat} (pc : Fin n → TaskPC) (i : Fin n)
    (v w : TaskPC) (hv : v ≠ w) (hold : pc i ≠ w) :
    (∃ j, Function.update pc i v j = w) ↔ ∃ j, pc j = w := by
  constructor
  · rintro ⟨j, hj⟩
    rcases pc_update_eq pc i v j w hj with ⟨rfl, hvw⟩ | ⟨hji, hpj⟩
    · exact absurd hvw hv
    · exact ⟨j, hpj⟩
  · rintro ⟨j, hj⟩
    refine ⟨j, ?_⟩
    rcases eq_or_ne j i with rfl | hji
    · exact absurd hj hold
    · rw [Function.update_noteq hji]; exact hj

theorem tmInv_init (n : Nat) : TMInv (tmInit n) := by
  refine ⟨?_, ?_, ?_, ?_, ?_⟩
  · intro i j hi
    simp [tmInit, inCrit] at hi
  · simp [tmInit, inCrit]
  · intro i h
    simp [tmInit] at h
  · intro i h
    simp [tmInit] at h
  · simp [tmInit]

theorem tmInv_step {n : Nat} {s t : TMState n} (hst : TMStep s t)
    (inv : TMInv s) : TMInv t := by
  obtain ⟨excl, lockIff, fetchNC, doneC, reqEq⟩ := inv
  cases hst with
  | checkHit i hpc hc =>
    refine ⟨?_, ?_, ?_, ?_, ?_⟩
    · intro j k hj hk
      rcases inCrit_update s.pc i TaskPC.done j hj with ⟨rfl, hv⟩ | ⟨hji, hj'⟩
      · exact absurd hv (by simp [inCrit])
      rcases inCrit_update s.pc i TaskPC.done k hk with ⟨rfl, hv⟩ | ⟨hki, hk'⟩
      · exact absurd hv (by simp [inCrit])
      exact excl j k hj' hk'
    · show s.lock = true ↔ _
      rw [lockIff]
      constructor
      · rintro ⟨j, hj⟩
        refine ⟨j, ?_⟩
        rcases eq_or_ne j i with rfl | hji
        · rw [hpc] at hj; exact absurd hj (by simp [inCrit])
        · show inCrit (Function.update s.pc i TaskPC.done j)
          rwa [Function.update_noteq hji]
      · rintro ⟨j, hj⟩
        rcases inCrit_update s.pc i TaskPC.done j hj with ⟨rfl, hv⟩ | ⟨hji, hj'⟩
        · exact absurd hv (by simp [inCrit])
        · exact ⟨j, hj'⟩
    · intro j hj
      rcases pc_update_eq s.pc i TaskPC.done j TaskPC.fetching hj with ⟨rfl, hv⟩ | ⟨hji, hj'⟩
      · exact absurd hv (by simp)
      · exact fetchNC j hj'
    · intro j hj
      exact hc
    · show s.requests = (if s.cache = true then 1 else 0) +
        (if ∃ j, Function.update s.pc i TaskPC.done j = TaskPC.fetching then 1 else 0)
      simp only [exists_eq_update_stable s.pc i TaskPC.done TaskPC.fetching (by simp)
        (by rw [hpc]; simp)]
      exact reqEq
  | checkMiss i hpc hc =>
    refine ⟨?_, ?_, ?_, ?_, ?_⟩
    · intro j k hj hk
      rcases inCrit_update s.pc i TaskPC.waitLock j hj with ⟨rfl, hv⟩ | ⟨hji, hj'⟩
      · exact absurd hv (by simp [inCrit])
      rcases inCrit_update s.pc i TaskPC.waitLock k hk with ⟨rfl, hv⟩ | ⟨hki, hk'⟩
      · exact absurd hv (by simp [inCrit])
      exact excl j k hj' hk'
    · show s.lock = true ↔ _
      rw [lockIff]
      constructor
      · rintro ⟨j, hj⟩
        refine ⟨j, ?_⟩
        rcases eq_or_ne j i with rfl | hji
        · rw [hpc] at hj; exact absurd hj (by simp [inCrit])
        · show inCrit (Function.update s.pc i TaskPC.waitLock j)
          rwa [Function.update_noteq hji]
      · rintro ⟨j, hj⟩
        rcases inCrit_update s.pc i TaskPC.waitLock j hj with ⟨rfl, hv⟩ | ⟨hji, hj'⟩
        · exact absurd hv (by simp [inCrit])
        · exact ⟨j, hj'⟩
    · intro j hj
      exact hc
    · intro j hj
      rcases pc_update_eq s.pc i TaskPC.waitLock j TaskPC.done hj with ⟨rfl, hv⟩ | ⟨hji, hj'⟩
      · exact absurd hv (by simp)
      · exact doneC j hj'
    · show s.requests = (if s.cache = true then 1 else 0) +
        (if ∃ j, Function.update s.pc i TaskPC.waitLock j = TaskPC.fetching then 1 else 0)
      simp only [exists_eq_update_stable s.pc i TaskPC.waitLock TaskPC.fetching (by simp)
        (by rw [hpc]; simp)]
      exact reqEq
  | acquire i hpc hl =>
    have noCrit : ∀ j, ¬ inCrit (s.pc j) := by
      intro j hj
      have hlt : s.lock = true := lockIff.mpr ⟨j, hj⟩
      rw [hl] at hlt
      exact absurd hlt (by simp)
    refine ⟨?_, ?_, ?_, ?_, ?_⟩
    · intro j k hj hk
      rcases inCrit_update s.pc i TaskPC.recheck j hj with ⟨hji0, _⟩ | ⟨hji, hj'⟩
      · rcases inCrit_update s.pc i TaskPC.recheck k hk with ⟨hki0, _⟩ | ⟨hki, hk'⟩
        · rw [hji0, hki0]
        · exact absurd hk' (noCrit k)
      · exact absurd hj' (noCrit j)
    · constructor
      · intro _
        refine ⟨i, ?_⟩
        show inCrit (Function.update s.pc i TaskPC.recheck i)
        rw [Function.update_same]
        trivial
      · intro _
        rfl
    · intro j hj
      rcases pc_update_eq s.pc i TaskPC.recheck j TaskPC.fetching hj with ⟨rfl, hv⟩ | ⟨hji, hj'⟩
      · exact absurd hv (by simp)
      · exact fetchNC j hj'
    · intro j hj
      rcases pc_update_eq s.pc i TaskPC.recheck j TaskPC.done hj with ⟨rfl, hv⟩ | ⟨hji, hj'⟩
      · exact absurd hv (by simp)
      · exact doneC j hj'
    · show s.requests = (if s.cache = true then 1 else 0) +
        (if ∃ j, Function.update s.pc i TaskPC.recheck j = TaskPC.fetching then 1 else 0)
      simp only [exists_eq_update_stable s.pc i TaskPC.recheck TaskPC.fetching (by simp)
        (by rw [hpc]; simp)]
      exact reqEq
  | recheckHit i hpc hc =>
    have onlyI : ∀ j, inCrit (s.pc j) → j = i := by
      intro j hj
      exact excl j i hj (by rw [hpc]; trivial)
    refine ⟨?_, ?_, ?_, ?_, ?_⟩
    · intro j k hj hk
      rcases inCrit_update s.pc i TaskPC.done j hj with ⟨rfl, hv⟩ | ⟨hji, hj'⟩
      · exact absurd hv (by simp [inCrit])
      · exact absurd (onlyI j hj') hji
    · constructor
      · intro h
        exact absurd h (by simp)
      · rintro ⟨j, hj⟩
        rcases inCrit_update s.pc i TaskPC.done j hj with ⟨rfl, hv⟩ | ⟨hji, hj'⟩
        · exact absurd hv (by simp [inCrit])
        · exact absurd (onlyI j hj') hji
    · intro j hj
      rcases pc_update_eq s.pc i TaskPC.done j TaskPC.fetching hj with ⟨rfl, hv⟩ | ⟨hji, hj'⟩
      · exact absurd hv (by simp)
      · exact absurd (onlyI j (by rw [hj']; trivial)) hji
    · intro j hj
      exact hc
    · show s.requests = (if s.cache = true then 1 else 0) +
        (if ∃ j, Function.update s.pc i TaskPC.done j = TaskPC.fetching then 1 else 0)
      simp only [exists_eq_update_stable s.pc i TaskPC.done TaskPC.fetching (by simp)
        (by rw [hpc]; simp)]
      exact reqEq
  | recheckMiss i hpc hc =>
    have critI : inCrit (s.pc i) := by rw [hpc]; trivial
    have onlyI : ∀ j, inCrit (s.pc j) → j = i := fun j hj => excl j i hj critI
    have noFetch : ¬ ∃ j, s.pc j = TaskPC.fetching := by
      rintro ⟨j, hj⟩
      have hji := onlyI j (by rw [hj]; trivial)
      subst hji
      rw [hpc] at hj
      exact absurd hj (by simp)
    have hex : ∃ j, Function.update s.pc i TaskPC.fetching j = TaskPC.fetching :=
      ⟨i, Function.update_same i TaskPC.fetching s.pc⟩
    refine ⟨?_, ?_, ?_, ?_, ?_⟩
    · intro j k hj hk
      rcases inCrit_update s.pc i TaskPC.fetching j hj with ⟨hji0, _⟩ | ⟨hji, hj'⟩
      · rcases inCrit_update s.pc i TaskPC.fetching k hk with ⟨hki0, _⟩ | ⟨hki, hk'⟩
        · rw [hji0, hki0]
        · exact absurd (onlyI k hk') hki
      · exact absurd (onlyI j hj') hji
    · show s.lock = true ↔ _
      constructor
      · intro _
        refine ⟨i, ?_⟩
        show inCrit (Function.update s.pc i TaskPC.fetching i)
        rw [Function.update_same]
        trivial
      · intro _
        exact lockIff.mpr ⟨i, critI⟩
    · intro j hj
      exact hc
    · intro j hj
      rcases pc_update_eq s.pc i TaskPC.fetching j TaskPC.done hj with ⟨rfl, hv⟩ | ⟨hji, hj'⟩
      · exact absurd hv (by simp)
      · have hcd := doneC j hj'
        rw [hc] at hcd
        exact absurd hcd (by simp)
    · show s.requests + 1 = (if s.cache = true then 1 else 0) +
        (if ∃ j, Function.update s.pc i TaskPC.fetching j = TaskPC.fetching then 1 else 0)
      simp only [reqEq, hc, if_neg noFetch, if_pos hex]
  | fetchDone i hpc =>
    have critI : inCrit (s.pc i) := by rw [hpc]; trivial
    have onlyI : ∀ j, inCrit (s.pc j) → j = i := fun j hj => excl j i hj critI
    have hcold : s.cache = false := fetchNC i hpc
    have hexOld : ∃ j, s.pc j = TaskPC.fetching := ⟨i, hpc⟩
    have noFetchNew : ¬ ∃ j, Function.update s.pc i TaskPC.done j = TaskPC.fetching := by
      rintro ⟨j, hj⟩
      rcases pc_update_eq s.pc i TaskPC.done j TaskPC.fetching hj with ⟨rfl, hv⟩ | ⟨hji, hj'⟩
      · exact absurd hv (by simp)
      · exact absurd (onlyI j (by rw [hj']; trivial)) hji
    refine ⟨?_, ?_, ?_, ?_, ?_⟩
    · intro j k hj hk
      rcases inCrit_update s.pc i TaskPC.done j hj with ⟨rfl, hv⟩ | ⟨hji, hj'⟩
      · exact absurd hv (by simp [inCrit])
      · exact absurd (onlyI j hj') hji
    · constructor
      · intro h
        exact absurd h (by simp)
      · rintro ⟨j, hj⟩
        rcases inCrit_update s.pc i TaskPC.done j hj with ⟨rfl, hv⟩ | ⟨hji, hj'⟩
        · exact absurd hv (by simp [inCrit])
        · exact absurd (onlyI j hj') hji
    · intro j hj
      exact (noFetchNew ⟨j, hj⟩).elim
    · intro j hj
      rfl
    · show s.requests = (if (true : Bool) = true then 1 else 0) +
        (if ∃ j, Function.update s.pc i TaskPC.done j = TaskPC.fetching then 1 else 0)
      simp only [reqEq, hcold, if_neg noFetchNew, if_pos hexOld]
      simp

theorem tmInv_reachable {n : Nat} {s : TMState n} (h : tmReachable s) : TMInv s := by
  induction h with
  | refl => exact tmInv_init n
  | tail _ hstep ih => exact tmInv_step hstep ih

/-- A concrete search response with duplicated identifiers across the
`articles` sub-lists and top-level `id` fields, and one non-`LEGIARTI`
token. -/
def c9Resp : Json :=
  Json.obj [("results", Json.arr
    [Json.obj
       [("articles", Json.arr
          [Json.obj [("id", Json.str "LEGIARTI000001")],
           Json.obj [("id", Json.str "LEGIARTI000002")]]),
        ("id", Json.str "LEGIARTI000001")],
     Json.obj [("id", Json.str "LEGIARTI000002")],
     Json.obj [("id", Json.str "OTHER000003")]])]


/-- The `filtres` list of a built search payload (`none` when the build
raised). -/
def payloadFiltres : Except Unit Json → Option Json
  | Except.ok p => some ((p.get "recherche").get "filtres")
  | Except.error _ => none

/-- A search response containing four distinct identifiers, triggering the
ambiguity branch. -/
def c1Resp : Json :=
  Json.obj [("results", Json.arr
    [Json.obj [("id", Json.str "LEGIARTI000000000001")],
     Json.obj [("id", Json.str "LEGIARTI000000000002")],
     Json.obj [("id", Json.str "LEGIARTI000000000003")],
     Json.obj [("id", Json.str "LEGIARTI000000000004")]])]

/-- An environment whose search always succeeds with `c1Resp`. -/
def c1Env : Env :=
  { search := fun _ => Except.ok c1Resp
    getArticle := fun _ => Except.ok Json.null }

/-- The primary payload built for code "Code civil", article "1", no
date hint. -/
def c1Payload : Json :=
  match search_payload_code_article "Code civil" "1" none with
  | Except.ok p => p
  | Except.error _ => Json.null

/-- An environment in which every remote call raises an authentication
error (as when the PISTE credentials are missing). -/
def authFailEnv : Env :=
  { search := fun _ => Except.error (LfError.auth "PISTE credentials manquants")
    getArticle := fun _ => Except.error (LfError.auth "PISTE credentials manquants") }

/-! ## Lemmas: extraction and deduplication -/

theorem mem_foldr_append {α β : Type} (f : α → List β) (l : List α) (x : β) :
    x ∈ l.foldr (fun r acc => f r ++ acc) [] ↔ ∃ r ∈ l, x ∈ f r := by
  induction l with
  | nil => simp
  | cons a as ih => simp [List.foldr_cons, ih]

theorem dedupAux_eq_firstSeenDedup (l : List String) :
    ∀ seen : List String,
      dedupAux seen l = firstSeenDedup (l.filter (fun y => y ∉ seen)) := by
  induction l with
  | nil => intro seen; simp [dedupAux, firstSeenDedup]
  | cons x xs ih =>
    intro seen
    by_cases hx : x ∈ seen
    · rw [dedupAux, if_pos hx, List.filter_cons, if_neg (by simp [hx]), ih]
    · rw [dedupAux, if_neg hx, List.filter_cons, if_pos (by simp [hx]),
        firstSeenDedup, ih (x :: seen)]
      congr 1
      rw [List.filter_filter]
      congr 1
      apply List.filter_congr
      intro y _
      by_cases hyx : y = x
      · simp [hyx]
      · by_cases hys : y ∈ seen <;> simp [hyx, hys, List.mem_cons]

theorem mem_firstSeenDedup (l : List String) (a : String) :
    a ∈ firstSeenDedup l ↔ a ∈ l := by
  induction l using firstSeenDedup.induct with
  | case1 => simp [firstSeenDedup]
  | case2 x xs ih =>
    rw [firstSeenDedup]
    by_cases hax : a = x
    · simp [hax]
    · simp only [List.mem_cons, ih, List.mem_filter]
      constructor
      · rintro (h | ⟨h, _⟩)
        · exact Or.inl h
        · exact Or.inr h
      · rintro (h | h)
        · exact Or.inl h
        · exact Or.inr ⟨h, by simp [hax]⟩

theorem firstSeenDedup_nodup (l : List String) : (firstSeenDedup l).Nodup := by
  induction l using firstSeenDedup.induct with
  | case1 => simp [firstSeenDedup]
  | case2 x xs ih =>
    rw [firstSeenDedup]
    refine List.Nodup.cons ?_ ih
    intro hmem
    rw [mem_firstSeenDedup, List.mem_filter] at hmem
    simp at hmem

theorem firstSeenDedup_sublist (l : List String) :
    List.Sublist (firstSeenDedup l) l := by
  induction l using firstSeenDedup.induct with
  | case1 => simp [firstSeenDedup]
  | case2 x xs ih =>
    rw [firstSeenDedup]
    exact List.Sublist.cons₂ x (ih.trans (List.filter_sublist xs))

theorem firstSeenDedup_of_nodup (l : List String) (h : l.Nodup) :
    firstSeenDedup l = l := by
  induction l using firstSeenDedup.induct with
  | case1 => simp [firstSeenDedup]
  | case2 x xs ih =>
    rw [firstSeenDedup]
    rw [List.nodup_cons] at h
    have hf : xs.filter (fun y => y ≠ x) = xs := by
      apply List.filter_eq_self.mpr
      intro y hy
      simp only [ne_eq, decide_eq_true_eq]
      intro hyx
      exact h.1 (hyx ▸ hy)
    rw [hf] at ih ⊢
    rw [ih h.2]

theorem legiartiOfId_marker (v : Json) :
    ∀ x ∈ legiartiOfId v, pyStartsWith "LEGIARTI" x = true := by
  intro x hx
  cases v with
  | str s =>
    simp only [legiartiOfId] at hx
    by_cases hsw : pyStartsWith "LEGIARTI" s = true
    · rw [if_pos hsw] at hx
      rw [List.mem_singleton] at hx
      exact hx ▸ hsw
    · rw [if_neg hsw] at hx
      simp at hx
  | null => simp [legiartiOfId] at hx
  | bool b => simp [legiartiOfId] at hx
  | num n => simp [legiartiOfId] at hx
  | arr l => simp [legiartiOfId] at hx
  | obj l => simp [legiartiOfId] at hx

theorem idsOfArticleEntry_marker (a : Json) :
    ∀ x ∈ idsOfArticleEntry a, pyStartsWith "LEGIARTI" x = true := by
  intro x hx
  cases a with
  | obj fields =>
    simp only [idsOfArticleEntry] at hx
    exact legiartiOfId_marker _ x hx
  | null => simp [idsOfArticleEntry] at hx
  | bool b => simp [idsOfArticleEntry] at hx
  | num n => simp [idsOfArticleEntry] at hx
  | str s => simp [idsOfArticleEntry] at hx
  | arr l => simp [idsOfArticleEntry] at hx

theorem idsOfResult_marker (r : Json) :
    ∀ x ∈ idsOfResult r, pyStartsWith "LEGIARTI" x = true := by
  intro x hx
  cases r with
  | obj fields =>
    simp only [idsOfResult] at hx
    rw [List.mem_append] at hx
    rcases hx with hxa | hxi
    · rcases harts : pyOr (Json.get (Json.obj fields) "articles") (Json.arr [])
        with _ | b | nn | s | arts | o
      all_goals rw [harts] at hxa
      all_goals simp only [] at hxa
      all_goals try simp at hxa
      rw [mem_foldr_append] at hxa
      obtain ⟨a, _, ha⟩ := hxa
      exact idsOfArticleEntry_marker a x ha
    · exact legiartiOfId_marker _ x hxi
  | null => simp [idsOfResult] at hx
  | bool b => simp [idsOfResult] at hx
  | num n => simp [idsOfResult] at hx
  | str s => simp [idsOfResult] at hx
  | arr l => simp [idsOfResult] at hx

theorem extractRawIds_marker (search_resp : Json) :
    ∀ x ∈ extractRawIds search_resp, pyStartsWith "LEGIARTI" x = true := by
  intro x hx
  rw [extractRawIds] at hx
  rcases hres : pyOr (Json.get search_resp "results") (Json.arr [])
    with _ | b | nn | s | rs | o
  all_goals rw [hres] at hx
  all_goals simp only [] at hx
  all_goals try simp at hx
  rw [mem_foldr_append] at hx
  obtain ⟨r, _, hr⟩ := hx
  exact idsOfResult_marker r x hr

/-- C9: identifier extraction collects, per result, the `LEGIARTI`-prefixed
string identifiers of the nested `articles` sub-list and of the direct `id`
field (a missing or non-list `results` field giving the empty collection),
and returns them deduplicated in first-seen order: the output is exactly
the first-seen deduplication of the raw collected list, is duplicate-free,
has the same members as the raw list, contains only `LEGIARTI`-prefixed
tokens, counts every member exactly once, preserves the raw relative order
(sublist), and re-running the dedup pass on the output is the identity
(idempotence; the extraction itself is a pure function, so running it
twice on the same response trivially yields the same list). -/
theorem c9_identifier_extraction (search_resp : Json) :
    extract_legiarti_id_from_search search_resp
        = firstSeenDedup (extractRawIds search_resp)
      ∧ (extract_legiarti_id_from_search search_resp).Nodup
      ∧ (∀ x, x ∈ extract_legiarti_id_from_search search_resp
          ↔ x ∈ extractRawIds search_resp)
      ∧ (∀ x ∈ extract_legiarti_id_from_search search_resp,
          pyStartsWith "LEGIARTI" x = true)
      ∧ (∀ x ∈ extract_legiarti_id_from_search search_resp,
          (extract_legiarti_id_from_search search_resp).count x = 1)
      ∧ List.Sublist (extract_legiarti_id_from_search search_resp)
          (extractRawIds search_resp)
      ∧ dedupAux [] (extract_legiarti_id_from_search search_resp)
          = extract_legiarti_id_from_search search_resp := by
  have h1 : extract_legiarti_id_from_search search_resp
      = firstSeenDedup (extractRawIds search_resp) := by
    rw [extract_legiarti_id_from_search, dedupAux_eq_firstSeenDedup]
    congr 1
    simp
  have hnodup : (extract_legiarti_id_from_search search_resp).Nodup := by
    rw [h1]; exact firstSeenDedup_nodup _
  have hmem : ∀ x, x ∈ extract_legiarti_id_from_search search_resp
      ↔ x ∈ extractRawIds search_resp := by
    intro x; rw [h1]; exact mem_firstSeenDedup _ x
  refine ⟨h1, hnodup, hmem, ?_, ?_, ?_, ?_⟩
  · intro x hx
    exact extractRawIds_marker search_resp x ((hmem x).mp hx)
  · intro x hx
    exact List.count_eq_one_of_mem hnodup hx
  · rw [h1]; exact firstSeenDedup_sublist _
  · rw [dedupAux_eq_firstSeenDedup]
    have : (extract_legiarti_id_from_search search_resp).filter
        (fun y => y ∉ ([] : List String)) = extract_legiarti_id_from_search search_resp := by
      simp
    rw [this]
    exact firstSeenDedup_of_nodup _ hnodup

theorem c9_identifier_extraction_witness :
    ("LEGIARTI000001" ∈ extract_legiarti_id_from_search c9Resp)
      ∧ (extract_legiarti_id_from_search c9Resp).count "LEGIARTI000001" = 1
      ∧ pyStartsWith "LEGIARTI" "LEGIARTI000001" = true := by
  have h := c9_identifier_extraction c9Resp
  have hmem : "LEGIARTI000001" ∈ extract_legiarti_id_from_search c9Resp := by decide
  exact ⟨hmem, h.2.2.2.2.1 _ hmem, h.2.2.2.1 _ hmem⟩

/-! ## Lemmas: transport -/

theorem postAux_delays (env : Nat → Event) :
    ∀ fuel attempt r refreshed lastExc delays invs, ∃ k, k ≤ fuel ∧
      (postAux env fuel attempt r refreshed lastExc delays invs).2.delays
        = delays.reverse ++ backoffSchedule k attempt := by
  intro fuel
  induction fuel with
  | zero =>
    intro attempt r refreshed lastExc delays invs
    exact ⟨0, Nat.le_refl 0, by simp [postAux, backoffSchedule]⟩
  | succ fuel ih =>
    intro attempt r refreshed lastExc delays invs
    rw [postAux]
    cases env r with
    | authErr m => exact ⟨0, by omega, by simp [backoffSchedule]⟩
    | netErr e =>
      obtain ⟨k, hk, heq⟩ :=
        ih (attempt + 1) (r + 1) refreshed (some e) (backoffMs attempt :: delays) invs
      refine ⟨k + 1, by omega, ?_⟩
      rw [heq, List.reverse_cons, List.append_assoc]
      rfl
    | resp st body =>
      simp only []
      by_cases h401 : (st = 401 && !refreshed) = true
      · rw [if_pos h401]
        cases env (r + 1) with
        | authErr m => exact ⟨0, by omega, by simp [backoffSchedule]⟩
        | netErr e =>
          obtain ⟨k, hk, heq⟩ :=
            ih (attempt + 1) (r + 2) true (some e) (backoffMs attempt :: delays) (invs + 1)
          refine ⟨k + 1, by omega, ?_⟩
          rw [heq, List.reverse_cons, List.append_assoc]
          rfl
        | resp st2 body2 =>
          simp only []
          by_cases htr : transientStatus st2 = true
          · rw [if_pos htr]
            obtain ⟨k, hk, heq⟩ :=
              ih (attempt + 1) (r + 2) true lastExc (backoffMs attempt :: delays) (invs + 1)
            refine ⟨k + 1, by omega, ?_⟩
            rw [heq, List.reverse_cons, List.append_assoc]
            rfl
          · rw [if_neg htr]
            exact ⟨0, by omega, by simp [backoffSchedule]⟩
      · rw [if_neg h401]
        by_cases htr : transientStatus st = true
        · rw [if_pos htr]
          obtain ⟨k, hk, heq⟩ :=
            ih (attempt + 1) (r + 1) refreshed lastExc (backoffMs attempt :: delays) invs
          refine ⟨k + 1, by omega, ?_⟩
          rw [heq, List.reverse_cons, List.append_assoc]
          rfl
        · rw [if_neg htr]
          exact ⟨0, by omega, by simp [backoffSchedule]⟩

theorem postAux_invalidations (env : Nat → Event) :
    ∀ fuel attempt r refreshed lastExc delays invs,
      (postAux env fuel attempt r refreshed lastExc delays invs).2.invalidations
        ≤ invs + (if refreshed then 0 else 1) := by
  intro fuel
  induction fuel with
  | zero =>
    intro attempt r refreshed lastExc delays invs
    simp [postAux]
  | succ fuel ih =>
    intro attempt r refreshed lastExc delays invs
    rw [postAux]
    cases env r with
    | authErr m => simp
    | netErr e =>
      exact le_trans (ih (attempt + 1) (r + 1) refreshed (some e)
        (backoffMs attempt :: delays) invs) (by omega)
    | resp st body =>
      simp only []
      by_cases h401 : (st = 401 && !refreshed) = true
      · have hrf : refreshed = false := by
          revert h401
          cases refreshed <;> simp
        subst hrf
        rw [if_pos h401]
        cases env (r + 1) with
        | authErr m => simp
        | netErr e =>
          exact le_trans (ih (attempt + 1) (r + 2) true (some e)
            (backoffMs attempt :: delays) (invs + 1)) (by simp)
        | resp st2 body2 =>
          simp only []
          by_cases htr : transientStatus st2 = true
          · rw [if_pos htr]
            exact le_trans (ih (attempt + 1) (r + 2) true lastExc
              (backoffMs attempt :: delays) (invs + 1)) (by simp)
          · rw [if_neg htr]
            simp
      · rw [if_neg h401]
        by_cases htr : transientStatus st = true
        · rw [if_pos htr]
          exact le_trans (ih (attempt + 1) (r + 1) refreshed lastExc
            (backoffMs attempt :: delays) invs) (by omega)
        · rw [if_neg htr]
          simp

theorem transient_ne_401 (st : Nat) (h : transientStatus st = true) : st ≠ 401 := by
  intro h401
  subst h401
  simp [transientStatus] at h

theorem postAux_transient_exhausts (env : Nat → Event)
    (h : ∀ i, eventTransient (env i) = true) :
    ∀ fuel attempt r refreshed lastExc delays invs, ∃ le,
      postAux env fuel attempt r refreshed lastExc delays invs
        = (PostResult.netExhausted le,
           ⟨r + fuel, delays.reverse ++ backoffSchedule fuel attempt, invs⟩) := by
  intro fuel
  induction fuel with
  | zero =>
    intro attempt r refreshed lastExc delays invs
    exact ⟨lastExc, by simp [postAux, backoffSchedule]⟩
  | succ fuel ih =>
    intro attempt r refreshed lastExc delays invs
    rw [postAux]
    have htr := h r
    cases henv : env r with
    | authErr m =>
      rw [henv] at htr
      simp [eventTransient] at htr
    | netErr e =>
      simp only []
      obtain ⟨le, heq⟩ :=
        ih (attempt + 1) (r + 1) refreshed (some e) (backoffMs attempt :: delays) invs
      refine ⟨le, ?_⟩
      have hreq : r + 1 + fuel = r + (fuel + 1) := by omega
      rw [heq, List.reverse_cons, List.append_assoc, hreq]
      rfl
    | resp st body =>
      simp only []
      rw [henv] at htr
      simp only [eventTransient] at htr
      have hne : st ≠ 401 := transient_ne_401 st htr
      have hcond : (st = 401 && !refreshed) = false := by
        simp [hne]
      rw [hcond]
      simp only [Bool.false_eq_true, if_false]
      rw [if_pos htr]
      obtain ⟨le, heq⟩ :=
        ih (attempt + 1) (r + 1) refreshed lastExc (backoffMs attempt :: delays) invs
      refine ⟨le, ?_⟩
      have hreq : r + 1 + fuel = r + (fuel + 1) := by omega
      rw [heq, List.reverse_cons, List.append_assoc, hreq]
      rfl

/-- C2: transient retry of the transport. Every call sleeps according to
the schedule `200ms * 2^attempt` for at most 3 attempts (its sleep list is
a prefix of `[200, 400, 800]`); the response sequence `[503, 503, 200]`
succeeds on the third attempt (3 requests) with backoff delays
`[200, 400]`; if every event is transient (a status in
`{429, 500, 502, 503, 504}` or a network failure) the call exhausts all 3
attempts and fails with the network-exhaustion error embedding the last
underlying exception; in particular three network failures yield
`netExhausted (some m2)` where `m2` is the last error. -/
theorem c2_transport_retry :
    (∀ env : Nat → Event, (post_legifrance env).2.delays
        ∈ ([[], [200], [200, 400], [200, 400, 800]] : List (List Nat)))
      ∧ (∀ b1 b2 b3 : Json, ∀ d : Event,
          post_legifrance (envOfList
            [Event.resp 503 b1, Event.resp 503 b2, Event.resp 200 b3] d)
            = (PostResult.ok b3, ⟨3, [200, 400], 0⟩))
      ∧ (∀ env : Nat → Event, (∀ i, eventTransient (env i) = true) →
          ∃ le, post_legifrance env
            = (PostResult.netExhausted le, ⟨3, [200, 400, 800], 0⟩))
      ∧ (∀ m0 m1 m2 : String, ∀ d : Event,
          post_legifrance (envOfList
            [Event.netErr m0, Event.netErr m1, Event.netErr m2] d)
            = (PostResult.netExhausted (some m2), ⟨3, [200, 400, 800], 0⟩)) := by
  refine ⟨?_, ?_, ?_, ?_⟩
  · intro env
    obtain ⟨k, hk, heq⟩ := postAux_delays env 3 0 0 false none [] 0
    show (postAux env 3 0 0 false none [] 0).2.delays ∈ _
    rw [heq]
    interval_cases k <;> decide
  · intro b1 b2 b3 d
    rfl
  · intro env h
    obtain ⟨le, heq⟩ := postAux_transient_exhausts env h 3 0 0 false none [] 0
    exact ⟨le, heq⟩
  · intro m0 m1 m2 d
    rfl

theorem c2_transport_retry_witness :
    (post_legifrance (fun _ => Event.netErr "timeout")).2.delays = [200, 400, 800]
      ∧ (post_legifrance (fun _ => Event.netErr "timeout")).2.requests = 3 := by
  obtain ⟨le, heq⟩ :=
    c2_transport_retry.2.2.1 (fun _ => Event.netErr "timeout") (fun i => rfl)
  rw [heq]
  exact ⟨rfl, rfl⟩

/-- C3: 401 handling. A first 401 answered by a 200 yields success with
exactly one token-cache invalidation, exactly two requests (the one
retry), and no backoff sleep in between; a 401 followed by another 401
yields the remote-API error carrying status 401 and the second body, still
with a single invalidation and no further refresh; and on every call the
transport performs at most one forced invalidation. -/
theorem c3_unauthorized_refresh :
    (∀ b1 b2 : Json, ∀ d : Event,
        post_legifrance (envOfList [Event.resp 401 b1, Event.resp 200 b2] d)
          = (PostResult.ok b2, ⟨2, [], 1⟩))
      ∧ (∀ b1 b2 : Json, ∀ d : Event,
        post_legifrance (envOfList [Event.resp 401 b1, Event.resp 401 b2] d)
          = (PostResult.apiError 401 b2, ⟨2, [], 1⟩))
      ∧ (∀ env : Nat → Event, (post_legifrance env).2.invalidations ≤ 1) := by
  refine ⟨?_, ?_, ?_⟩
  · intro b1 b2 d
    rfl
  · intro b1 b2 d
    rfl
  · intro env
    exact le_trans (postAux_invalidations env 3 0 0 false none [] 0) (by simp)

/-! ## Lemmas: token manager -/

theorem getA_of_hasKey_false (j : Json) (k : String) (d : Json)
    (h : j.hasKey k = false) : j.getA k d = d := by
  cases j with
  | obj fields =>
    simp only [Json.hasKey] at h
    cases hl : List.lookup k fields with
    | none => simp [Json.getA, hl]
    | some v => rw [hl] at h; simp at h
  | null => rfl
  | bool b => rfl
  | num n => rfl
  | str s => rfl
  | arr l => rfl

/-- C4: token refresh postconditions. With credentials configured: a
non-200 token-endpoint status fails with the authentication error carrying
the status and body; a 200 without a (truthy) `access_token` fails with
the missing-token authentication error; a missing `expires_in` defaults
the lifetime to 3600 seconds; a string-typed `expires_in` is coerced to
its integer value; and the cached expiry is `now + lifetime - 60`, so a
token served from the cache by `get_token` at time `tnow` is at least 60
seconds away from its real expiry `now + lifetime`. -/
theorem c4_token_refresh (clientId clientSecret : String) (status : Nat)
    (body : Json) (now : Int)
    (hcid : clientId ≠ "") (hcs : clientSecret ≠ "") :
    (status ≠ 200 →
      fetch_new_token clientId clientSecret status body now
        = Except.error (FetchErr.tokenEndpoint status body))
    ∧ (status = 200 → pyTruthy (body.get "access_token") = false →
      fetch_new_token clientId clientSecret status body now
        = Except.error FetchErr.noAccessToken)
    ∧ (status = 200 → pyTruthy (body.get "access_token") = true →
        body.hasKey "expires_in" = false →
      fetch_new_token clientId clientSecret status body now
        = Except.ok (body.get "access_token", now + 3600 - 60))
    ∧ (∀ s v, status = 200 → pyTruthy (body.get "access_token") = true →
        body.getA "expires_in" (Json.num 3600) = Json.str s →
        pyInt (Json.str s) = some v →
      fetch_new_token clientId clientSecret status body now
        = Except.ok (body.get "access_token", now + v - 60))
    ∧ (∀ tok exp life tnow,
        fetch_new_token clientId clientSecret status body now = Except.ok (tok, exp) →
        pyInt (body.getA "expires_in" (Json.num 3600)) = some life →
        tokenIsValid ⟨tok, some exp⟩ tnow = true →
        (get_token ⟨tok, some exp⟩ tnow clientId clientSecret status body).1
            = Except.ok tok
          ∧ tnow + 60 < now + life) := by
  have hcreds : (clientId = "" || clientSecret = "") = false := by
    simp [hcid, hcs]
  refine ⟨?_, ?_, ?_, ?_, ?_⟩
  · intro hst
    rw [fetch_new_token, hcreds]
    simp only [Bool.false_eq_true, if_false]
    rw [if_pos hst]
  · intro hst htok
    rw [fetch_new_token, hcreds]
    simp only [Bool.false_eq_true, if_false]
    rw [if_neg (by simp [hst]), htok]
    simp
  · intro hst htok hkey
    rw [fetch_new_token, hcreds]
    simp only [Bool.false_eq_true, if_false]
    rw [if_neg (by simp [hst]), htok]
    simp only [Bool.not_true, Bool.false_eq_true, if_false]
    rw [getA_of_hasKey_false body "expires_in" (Json.num 3600) hkey]
    rfl
  · intro s v hst htok hgetA hcoerce
    rw [fetch_new_token, hcreds]
    simp only [Bool.false_eq_true, if_false]
    rw [if_neg (by simp [hst]), htok]
    simp only [Bool.not_true, Bool.false_eq_true, if_false]
    rw [hgetA, hcoerce]
  · intro tok exp life tnow hfetch hlife hvalid
    have hget : (get_token ⟨tok, some exp⟩ tnow clientId clientSecret status body).1
        = Except.ok tok := by
      rw [get_token, if_pos hvalid]
    refine ⟨hget, ?_⟩
    rw [fetch_new_token, hcreds] at hfetch
    simp only [Bool.false_eq_true, if_false] at hfetch
    by_cases hst : status = 200
    · rw [if_neg (by simp [hst])] at hfetch
      by_cases htok : pyTruthy (body.get "access_token") = true
      · rw [htok] at hfetch
        simp only [Bool.not_true, Bool.false_eq_true, if_false] at hfetch
        rw [hlife] at hfetch
        simp only [Except.ok.injEq, Prod.mk.injEq] at hfetch
        obtain ⟨htokeq, hexpeq⟩ := hfetch
        simp only [tokenIsValid] at hvalid
        rw [Bool.and_eq_true, Bool.and_eq_true] at hvalid
        obtain ⟨-, -, hlt⟩ := hvalid
        rw [← hexpeq] at hlt
        simp only [decide_eq_true_eq] at hlt
        omega
      · rw [Bool.not_eq_true] at htok
        rw [htok] at hfetch
        simp at hfetch
    · rw [if_pos hst] at hfetch
      simp at hfetch

theorem c4_token_refresh_witness :
    fetch_new_token "cid" "secret" 200
        (Json.obj [("access_token", Json.str "tok"), ("expires_in", Json.str "7200")]) 1000
      = Except.ok (Json.str "tok", 8140)
    ∧ (get_token ⟨Json.str "tok", some 8140⟩ 5000 "cid" "secret" 200
        (Json.obj [("access_token", Json.str "tok"), ("expires_in", Json.str "7200")])).1
      = Except.ok (Json.str "tok")
    ∧ (5000 : Int) + 60 < 1000 + 7200 := by
  have h := c4_token_refresh "cid" "secret" 200
    (Json.obj [("access_token", Json.str "tok"), ("expires_in", Json.str "7200")]) 1000
    (by decide) (by decide)
  have hfetch := h.2.2.2.1 "7200" 7200 rfl (by decide) rfl (by decide)
  have hmargin := h.2.2.2.2 (Json.str "tok") 8140 7200 5000 (by rw [hfetch]; rfl)
    (by decide) (by decide)
  exact ⟨by rw [hfetch]; rfl, hmargin.1, hmargin.2⟩

/-- C5: token refresh mutual exclusion. In every interleaving of any
number of concurrent `get_token` callers starting from an absent/expired
cache, once all callers have completed, exactly one token request was
issued: the double-checked pattern (check, lock, re-check, refresh) makes
all other callers observe the single refresh's result instead of fetching
themselves. -/
theorem c5_single_refresh {n : Nat} (s : TMState n) (h : tmReachable s)
    (hdone : ∀ i, s.pc i = TaskPC.done) (hn : 0 < n) : s.requests = 1 := by
  have inv := tmInv_reachable h
  have hcache : s.cache = true := inv.doneCache ⟨0, hn⟩ (hdone ⟨0, hn⟩)
  have hnofetch : ¬ ∃ i, s.pc i = TaskPC.fetching := by
    rintro ⟨i, hi⟩
    rw [hdone i] at hi
    exact absurd hi (by simp)
  rw [inv.reqEq, hcache, if_neg hnofetch]
  simp

theorem c5_single_refresh_witness :
    ({ cache := true, lock := false, requests := 1,
       pc := fun _ => TaskPC.done } : TMState 2).requests = 1 := by
  have h1 : TMStep (tmInit 2)
      ⟨false, false, 0, Function.update (fun _ : Fin 2 => TaskPC.start)
        0 TaskPC.waitLock⟩ :=
    TMStep.checkMiss _ 0 rfl rfl
  have h2 : TMStep
      (⟨false, false, 0, Function.update (fun _ : Fin 2 => TaskPC.start)
        0 TaskPC.waitLock⟩ : TMState 2)
      ⟨false, false, 0, Function.update (Function.update
        (fun _ : Fin 2 => TaskPC.start) 0 TaskPC.waitLock) 1 TaskPC.waitLock⟩ :=
    TMStep.checkMiss _ 1 (by decide) rfl
  have h3 : TMStep
      (⟨false, false, 0, Function.update (Function.update
        (fun _ : Fin 2 => TaskPC.start) 0 TaskPC.waitLock) 1 TaskPC.waitLock⟩ : TMState 2)
      ⟨false, true, 0, Function.update (Function.update (Function.update
        (fun _ : Fin 2 => TaskPC.start) 0 TaskPC.waitLock) 1 TaskPC.waitLock)
        0 TaskPC.recheck⟩ :=
    TMStep.acquire _ 0 (by decide) rfl
  have h4 : TMStep
      (⟨false, true, 0, Function.update (Function.update (Function.update
        (fun _ : Fin 2 => TaskPC.start) 0 TaskPC.waitLock) 1 TaskPC.waitLock)
        0 TaskPC.recheck⟩ : TMState 2)
      ⟨false, true, 1, Function.update (Function.update (Function.update
        (Function.update (fun _ : Fin 2 => TaskPC.start) 0 TaskPC.waitLock)
        1 TaskPC.waitLock) 0 TaskPC.recheck) 0 TaskPC.fetching⟩ :=
    TMStep.recheckMiss _ 0 (by decide) rfl
  have h5 : TMStep
      (⟨false, true, 1, Function.update (Function.update (Function.update
        (Function.update (fun _ : Fin 2 => TaskPC.start) 0 TaskPC.waitLock)
        1 TaskPC.waitLock) 0 TaskPC.recheck) 0 TaskPC.fetching⟩ : TMState 2)
      ⟨true, false, 1, Function.update (Function.update (Function.update
        (Function.update (Function.update (fun _ : Fin 2 => TaskPC.start)
        0 TaskPC.waitLock) 1 TaskPC.waitLock) 0 TaskPC.recheck) 0 TaskPC.fetching)
        0 TaskPC.done⟩ :=
    TMStep.fetchDone _ 0 (by decide)
  have h6 : TMStep
      (⟨true, false, 1, Function.update (Function.update (Function.update
        (Function.update (Function.update (fun _ : Fin 2 => TaskPC.start)
        0 TaskPC.waitLock) 1 TaskPC.waitLock) 0 TaskPC.recheck) 0 TaskPC.fetching)
        0 TaskPC.done⟩ : TMState 2)
      ⟨true, true, 1, Function.update (Function.update (Function.update
        (Function.update (Function.update (Function.update
        (fun _ : Fin 2 => TaskPC.start) 0 TaskPC.waitLock) 1 TaskPC.waitLock)
        0 TaskPC.recheck) 0 TaskPC.fetching) 0 TaskPC.done) 1 TaskPC.recheck⟩ :=
    TMStep.acquire _ 1 (by decide) rfl
  have h7 : TMStep
      (⟨true, true, 1, Function.update (Function.update (Function.update
        (Function.update (Function.update (Function.update
        (fun _ : Fin 2 => TaskPC.start) 0 TaskPC.waitLock) 1 TaskPC.waitLock)
        0 TaskPC.recheck) 0 TaskPC.fetching) 0 TaskPC.done) 1 TaskPC.recheck⟩ : TMState 2)
      ⟨true, false, 1, Function.update (Function.update (Function.update
        (Function.update (Function.update (Function.update (Function.update
        (fun _ : Fin 2 => TaskPC.start) 0 TaskPC.waitLock) 1 TaskPC.waitLock)
        0 TaskPC.recheck) 0 TaskPC.fetching) 0 TaskPC.done) 1 TaskPC.recheck)
        1 TaskPC.done⟩ :=
    TMStep.recheckHit _ 1 (by decide) rfl
  have hchain : tmReachable
      (⟨true, false, 1, Function.update (Function.update (Function.update
        (Function.update (Function.update (Function.update (Function.update
        (fun _ : Fin 2 => TaskPC.start) 0 TaskPC.waitLock) 1 TaskPC.waitLock)
        0 TaskPC.recheck) 0 TaskPC.fetching) 0 TaskPC.done) 1 TaskPC.recheck)
        1 TaskPC.done⟩ : TMState 2) :=
    Relation.ReflTransGen.tail (Relation.ReflTransGen.tail
      (Relation.ReflTransGen.tail (Relation.ReflTransGen.tail
        (Relation.ReflTransGen.tail (Relation.ReflTransGen.tail
          (Relation.ReflTransGen.tail Relation.ReflTransGen.refl h1) h2) h3) h4)
        h5) h6) h7
  have hreq := c5_single_refresh
      (⟨true, false, 1, Function.update (Function.update (Function.update
        (Function.update (Function.update (Function.update (Function.update
        (fun _ : Fin 2 => TaskPC.start) 0 TaskPC.waitLock) 1 TaskPC.waitLock)
        0 TaskPC.recheck) 0 TaskPC.fetching) 0 TaskPC.done) 1 TaskPC.recheck)
        1 TaskPC.done⟩ : TMState 2)
      hchain (by intro i; fin_cases i <;> rfl) (by decide)
  exact hreq

/-! ## Lemmas: resolution engine -/

theorem resolve_code_article_reduce (env : Env) (code_hint article_hint : String)
    (date_hint : Option String) (ct an : String) (payload : Json)
    (hct : normalize_code_title code_hint = some ct) (hct' : ct ≠ "")
    (han : normalize_article_num article_hint = some an) (han' : an ≠ "")
    (hp : search_payload_code_article ct an date_hint = Except.ok payload) :
    resolve_code_article env code_hint article_hint date_hint
      = match env.search payload with
        | Except.ok search_resp =>
            afterSearch env ct an date_hint search_resp [NetCall.search payload]
        | Except.error _ =>
            match env.search (fallback_payload_code_only ct) with
            | Except.ok search_resp =>
                afterSearch env ct an date_hint search_resp
                  [NetCall.search payload,
                   NetCall.search (fallback_payload_code_only ct)]
            | Except.error e2 =>
                (ResolveOutcome.error e2,
                 [NetCall.search payload,
                  NetCall.search (fallback_payload_code_only ct)]) := by
  have hcond : (pyFalsyOptStr (some ct) || pyFalsyOptStr (some an)) = false := by
    simp [pyFalsyOptStr, hct', han']
  rw [resolve_code_article, hct, han]
  simp only [hcond, Bool.false_eq_true, if_false, Option.getD_some]
  rw [hp]

theorem afterSearch_notFound (env : Env) (ct an : String) (dh : Option String)
    (resp : Json) (trace : List NetCall)
    (h : extract_legiarti_id_from_search resp = []) :
    afterSearch env ct an dh resp trace
      = (ResolveOutcome.notFound (notFoundMsg ct an dh), trace) := by
  simp only [afterSearch, h, List.isEmpty_nil, if_true]

theorem afterSearch_ambiguous (env : Env) (ct an : String) (dh : Option String)
    (resp : Json) (trace : List NetCall)
    (h : 3 < (extract_legiarti_id_from_search resp).length) :
    afterSearch env ct an dh resp trace
      = (ResolveOutcome.ambiguous
          (ambiguousMsg (extract_legiarti_id_from_search resp).length)
          (((extract_legiarti_id_from_search resp).take 10).map mkCandidate),
         trace) := by
  have hne : (extract_legiarti_id_from_search resp).isEmpty = false := by
    cases hE : extract_legiarti_id_from_search resp with
    | nil => rw [hE] at h; simp at h
    | cons x xs => simp
  simp only [afterSearch, hne, Bool.false_eq_true, if_false, if_pos h]

theorem afterSearch_fetch (env : Env) (ct an : String) (dh : Option String)
    (resp : Json) (trace : List NetCall)
    (hne : extract_legiarti_id_from_search resp ≠ [])
    (hle : (extract_legiarti_id_from_search resp).length ≤ 3) :
    afterSearch env ct an dh resp trace
      = fetchPhase env ((extract_legiarti_id_from_search resp).headD "") an dh
          trace := by
  have hemp : (extract_legiarti_id_from_search resp).isEmpty = false := by
    cases hE : extract_legiarti_id_from_search resp with
    | nil => exact absurd hE hne
    | cons x xs => simp
  have hnlt : ¬ 3 < (extract_legiarti_id_from_search resp).length := by omega
  simp only [afterSearch, hemp, Bool.false_eq_true, if_false, if_neg hnlt]

/-- C1: disambiguation policy of `resolve_code_article`. When the primary
search succeeds with some response: zero extracted identifiers yield the
`NotFound` outcome carrying the message naming the code title, article
number and date attempted (a returned outcome, not an uncaught
exception); more than 3 identifiers yield `Ambiguous` with the candidate
list truncated to at most 10, in first-seen order (the extracted list's
order); 1 to 3 identifiers proceed to the fetch phase on the first
identifier. -/
theorem c1_disambiguation (env : Env) (code_hint article_hint : String)
    (date_hint : Option String) (ct an : String) (payload search_resp : Json)
    (hct : normalize_code_title code_hint = some ct) (hct' : ct ≠ "")
    (han : normalize_article_num article_hint = some an) (han' : an ≠ "")
    (hp : search_payload_code_article ct an date_hint = Except.ok payload)
    (hs : env.search payload = Except.ok search_resp) :
    (extract_legiarti_id_from_search search_resp = [] →
      resolve_code_article env code_hint article_hint date_hint
        = (ResolveOutcome.notFound (notFoundMsg ct an date_hint),
           [NetCall.search payload]))
    ∧ (3 < (extract_legiarti_id_from_search search_resp).length →
      resolve_code_article env code_hint article_hint date_hint
        = (ResolveOutcome.ambiguous
            (ambiguousMsg (extract_legiarti_id_from_search search_resp).length)
            (((extract_legiarti_id_from_search search_resp).take 10).map mkCandidate),
           [NetCall.search payload])
        ∧ (((extract_legiarti_id_from_search search_resp).take 10).map
            mkCandidate).length ≤ 10)
    ∧ (extract_legiarti_id_from_search search_resp ≠ [] →
        (extract_legiarti_id_from_search search_resp).length ≤ 3 →
      resolve_code_article env code_hint article_hint date_hint
        = fetchPhase env ((extract_legiarti_id_from_search search_resp).headD "")
            an date_hint [NetCall.search payload]) := by
  have hred := resolve_code_article_reduce env code_hint article_hint date_hint
    ct an payload hct hct' han han' hp
  rw [hs] at hred
  simp only [] at hred
  refine ⟨?_, ?_, ?_⟩
  · intro h
    rw [hred, afterSearch_notFound env ct an date_hint search_resp _ h]
  · intro h
    refine ⟨?_, ?_⟩
    · rw [hred, afterSearch_ambiguous env ct an date_hint search_resp _ h]
    · simp only [List.length_map, List.length_take]
      omega
  · intro h1 h2
    rw [hred, afterSearch_fetch env ct an date_hint search_resp _ h1 h2]

theorem c1_disambiguation_witness :
    resolve_code_article c1Env "Code civil" "1" none
      = (ResolveOutcome.ambiguous (ambiguousMsg 4)
          [mkCandidate "LEGIARTI000000000001", mkCandidate "LEGIARTI000000000002",
           mkCandidate "LEGIARTI000000000003", mkCandidate "LEGIARTI000000000004"],
         [NetCall.search c1Payload]) := by
  have h := c1_disambiguation c1Env "Code civil" "1" none "Code civil" "1"
    c1Payload c1Resp rfl (by decide) rfl (by decide) rfl rfl
  have h2 := (h.2.1 (by decide)).1
  rw [h2]
  rfl

/-- C6: TooBroad precondition check. Whenever the normalized code title or
the normalized article number is falsy (absent or empty), the resolution
fails immediately with the TooBroad outcome and the recorded network
trace is empty: no search, no fetch, and hence no token acquisition
(tokens are only fetched inside transport calls). -/
theorem c6_too_broad (env : Env) (code_hint article_hint : String)
    (date_hint : Option String)
    (h : pyFalsyOptStr (normalize_code_title code_hint) = true
       ∨ pyFalsyOptStr (normalize_article_num article_hint) = true) :
    resolve_code_article env code_hint article_hint date_hint
      = (ResolveOutcome.tooBroad "code_hint ou article_hint manquant", []) := by
  rw [resolve_code_article]
  rcases h with h | h
  · simp only [h, Bool.true_or, if_true]
  · simp only [h, Bool.or_true, if_true]

theorem c6_too_broad_witness :
    resolve_code_article c1Env "" "L1221-1" none
      = (ResolveOutcome.tooBroad "code_hint ou article_hint manquant", []) :=
  c6_too_broad c1Env "" "L1221-1" none (Or.inl (by decide))

/-- C7: fallback search. When the primary search call errors, exactly one
fallback search is issued with the code-only payload; a failure of that
fallback propagates unchanged as the outcome, and a success continues the
resolution on the fallback's response. The fallback payload carries page
size 5, exactly the in-force status filter (no `DATE_VERSION` filter), and
exactly the single code-title criterion (no `NUM_ARTICLE` criterion). -/
theorem c7_fallback (env : Env) (code_hint article_hint : String)
    (date_hint : Option String) (ct an : String) (payload : Json) (e1 : LfError)
    (hct : normalize_code_title code_hint = some ct) (hct' : ct ≠ "")
    (han : normalize_article_num article_hint = some an) (han' : an ≠ "")
    (hp : search_payload_code_article ct an date_hint = Except.ok payload)
    (hfail : env.search payload = Except.error e1) :
    (∀ e2, env.search (fallback_payload_code_only ct) = Except.error e2 →
        resolve_code_article env code_hint article_hint date_hint
          = (ResolveOutcome.error e2,
             [NetCall.search payload,
              NetCall.search (fallback_payload_code_only ct)]))
    ∧ (∀ resp, env.search (fallback_payload_code_only ct) = Except.ok resp →
        resolve_code_article env code_hint article_hint date_hint
          = afterSearch env ct an date_hint resp
              [NetCall.search payload,
               NetCall.search (fallback_payload_code_only ct)])
    ∧ ((fallback_payload_code_only ct).get "recherche").get "pageSize"
        = Json.num 5
    ∧ ((fallback_payload_code_only ct).get "recherche").get "filtres"
        = Json.arr [statusFilter]
    ∧ ((fallback_payload_code_only ct).get "recherche").get "champs"
        = Json.arr [codeTitleChamp ct] := by
  have hred := resolve_code_article_reduce env code_hint article_hint date_hint
    ct an payload hct hct' han han' hp
  rw [hfail] at hred
  simp only [] at hred
  refine ⟨?_, ?_, rfl, rfl, rfl⟩
  · intro e2 h2
    rw [hred, h2]
  · intro resp h2
    rw [hred, h2]

theorem c7_fallback_witness :
    resolve_code_article authFailEnv "Code civil" "1" none
      = (ResolveOutcome.error (LfError.auth "PISTE credentials manquants"),
         [NetCall.search c1Payload,
          NetCall.search (fallback_payload_code_only "Code civil")]) := by
  have h := c7_fallback authFailEnv "Code civil" "1" none "Code civil" "1"
    c1Payload (LfError.auth "PISTE credentials manquants")
    rfl (by decide) rfl (by decide) rfl rfl
  exact h.1 _ rfl

/-- C8 (counterexample): after the primary search fails with an
authentication error, the engine *does* issue a further search attempt (the
code-only fallback): the recorded trace of a resolution against an
always-auth-failing environment contains two search calls, refuting the
claim that no further search attempt follows an authentication error. -/
theorem c8_counterexample :
    ((resolve_code_article authFailEnv "Code civil" "1" none).2.map
        NetCall.isSearch = [true, true])
      ∧ (resolve_code_article authFailEnv "Code civil" "1" none).1
        = ResolveOutcome.error (LfError.auth "PISTE credentials manquants") :=
  ⟨rfl, rfl⟩

/-- C8 (amended): an authentication error raised during token acquisition
aborts the transport call immediately — no retry, no backoff sleep, no
invalidation — so it is not retried by any logic beyond the Token
Manager's own; the resolution engine, however, applies its generic
fallback to any primary-search failure, authentication errors included:
exactly one fallback search is issued after an authentication error from
the primary search, and an authentication error from the fallback
propagates unchanged. -/
theorem c8_auth_errors (env : Env) (code_hint article_hint : String)
    (date_hint : Option String) (ct an : String) (payload : Json) (m : String)
    (hct : normalize_code_title code_hint = some ct) (hct' : ct ≠ "")
    (han : normalize_article_num article_hint = some an) (han' : an ≠ "")
    (hp : search_payload_code_article ct an date_hint = Except.ok payload)
    (hfail : env.search payload = Except.error (LfError.auth m)) :
    (∀ (m' : String) (d : Event),
        post_legifrance (envOfList [Event.authErr m'] d)
          = (PostResult.authError m', ⟨1, [], 0⟩))
    ∧ (∀ m2, env.search (fallback_payload_code_only ct)
          = Except.error (LfError.auth m2) →
        resolve_code_article env code_hint article_hint date_hint
          = (ResolveOutcome.error (LfError.auth m2),
             [NetCall.search payload,
              NetCall.search (fallback_payload_code_only ct)])) := by
  have hred := resolve_code_article_reduce env code_hint article_hint date_hint
    ct an payload hct hct' han han' hp
  rw [hfail] at hred
  simp only [] at hred
  refine ⟨fun m' d => rfl, ?_⟩
  intro m2 h2
  rw [hred, h2]

theorem c8_auth_errors_witness :
    post_legifrance (envOfList [Event.authErr "401 PISTE"] (Event.authErr "401 PISTE"))
        = (PostResult.authError "401 PISTE", ⟨1, [], 0⟩)
      ∧ resolve_code_article authFailEnv "Code civil" "1" none
        = (ResolveOutcome.error (LfError.auth "PISTE credentials manquants"),
           [NetCall.search c1Payload,
            NetCall.search (fallback_payload_code_only "Code civil")]) := by
  have h := c8_auth_errors authFailEnv "Code civil" "1" none "Code civil" "1"
    c1Payload "PISTE credentials manquants" rfl (by decide) rfl (by decide) rfl rfl
  exact ⟨h.1 "401 PISTE" (Event.authErr "401 PISTE"), h.2 _ rfl⟩

/-- C10: zero-millis edge of the date filter. The date hint "1970-01-01"
converts to epoch-millisecond 0, which is falsy, so the built primary
payload carries only the legal-status filter and no `DATE_VERSION`
filter; for every date hint whose conversion succeeds with a non-zero
value, the `DATE_VERSION` filter with that value is present (before the
status filter). -/
theorem c10_zero_millis_date (ct an : String) :
    (payloadFiltres (search_payload_code_article ct an (some "1970-01-01"))
        = some (Json.arr [statusFilter]))
    ∧ (∀ s m, iso_date_to_millis (some s) = Except.ok (some m) → m ≠ 0 →
        payloadFiltres (search_payload_code_article ct an (some s))
          = some (Json.arr [dateVersionFilter m, statusFilter])) := by
  constructor
  · rfl
  · intro s m hiso hm
    have hs : s ≠ "" := by
      intro e
      rw [e] at hiso
      simp [iso_date_to_millis] at hiso
    have hm' : (m != 0) = true := by simp [hm]
    simp only [search_payload_code_article]
    rw [if_neg hs, hiso]
    simp only [hm', if_true]
    rfl

theorem c10_zero_millis_date_witness :
    payloadFiltres (search_payload_code_article "Code civil" "1" (some "1970-01-01"))
        = some (Json.arr [statusFilter])
      ∧ payloadFiltres (search_payload_code_article "Code civil" "1" (some "2020-01-01"))
        = some (Json.arr [dateVersionFilter 1577836800000, statusFilter]) := by
  have h := c10_zero_millis_date "Code civil" "1"
  exact ⟨h.1, h.2 "2020-01-01" 1577836800000 rfl (by decide)⟩
